import Mathlib

/-!
Verification of the iterative research-workflow engine of this repository.

The engine exists in two variants:
* `src/research_graph.ts` — five `DynamicTool`s (`plannerTool`, `searcherTool`,
  `summarizerTool`, `evaluatorTool`, `reportGeneratorTool`) over a serialized
  `ResearchState`, each with a `try`/`catch` fallback around its inference call;
* `src/research_graph1.ts` — LangGraph nodes (`plannerNode`, `searcherNode`,
  `summarizerNode`, `shouldContinueNode`, `reportWriterNode`) over a plain state
  record, with no failure handling at all.

Each inference call (`deepseekChat.invoke`) is modelled by an `Option String`
argument: `some t` is a successful completion with text `t`; `none` is a failed
call (the promise rejecting).  Tool functions catch failures and fall back;
graph-node functions have no `catch`, so a failed call propagates, which is
modelled by the node producing `none`.

All definitions use structural recursion only, so every theorem below can be
instantiated on concrete inputs by kernel evaluation.
-/

namespace Research

/-- Whitespace test covering the characters `String.prototype.trim` removes that
can occur in this program (space, tab, line feed, carriage return). -/
def isJsWs (c : Char) : Bool :=
  c = ' ' || c = '\t' || c = '\n' || c = '\r'

/-- Drop leading JavaScript whitespace from a character list. -/
def dropWsLeft : List Char → List Char
  | [] => []
  | c :: cs => if isJsWs c then dropWsLeft cs else c :: cs

/-- Model of JavaScript `String.prototype.trim`: drop whitespace at both ends. -/
def jsTrim (s : String) : String :=
  String.mk (dropWsLeft ((dropWsLeft s.data.reverse).reverse))

/-- Model of JavaScript `String.prototype.toLowerCase` on the characters this
program inspects (`Char.toLower` lowers the ASCII letters and leaves everything
else unchanged, which is all the evaluator's `includes('continue')` test needs). -/
def jsToLower (s : String) : String :=
  String.mk (s.data.map Char.toLower)

/-- Does `needle` occur as a contiguous run inside the second list? -/
def containsSub (needle : List Char) : List Char → Bool
  | [] => needle.isEmpty
  | c :: cs => needle.isPrefixOf (c :: cs) || containsSub needle cs

/-- Model of JavaScript `haystack.includes(needle)`. -/
def jsIncludes (haystack needle : String) : Bool :=
  containsSub needle.data haystack.data

/-- Split a character list at commas, keeping empty pieces, accumulator-style. -/
def splitCommaAux (acc : List Char) : List Char → List (List Char)
  | [] => [acc.reverse]
  | c :: cs => if c = ',' then acc.reverse :: splitCommaAux [] cs
               else splitCommaAux (c :: acc) cs

/-- Model of JavaScript `s.split(',')` (always at least one piece; empty input
gives `[""]`, exactly as in JavaScript). -/
def jsSplitComma (s : String) : List String :=
  (splitCommaAux [] s.data).map String.mk

/-- Decimal digits of a natural number, most significant first, with enough fuel
to consume every digit; structural recursion so it evaluates in the kernel. -/
def natCharsCore : Nat → Nat → List Char → List Char
  | 0, _, acc => acc
  | fuel + 1, n, acc =>
    if n < 10 then Nat.digitChar n :: acc
    else natCharsCore fuel (n / 10) (Nat.digitChar (n % 10) :: acc)

/-- Decimal digit characters of `n`, most significant first. -/
def natChars (n : Nat) : List Char :=
  natCharsCore (n + 1) n []

/-- Model of JavaScript number-to-string on the nonnegative integers the
workflow state holds. -/
def natStr (n : Nat) : String :=
  String.mk (natChars n)

/-- The research state of `research_graph.ts` (`class ResearchState`): all seven
fields, with the constructor defaults `'' / [] / 0 / false`. -/
structure ResearchState where
  topic : String
  plan : String
  searchResults : List String
  summary : String
  report : String
  iterationCount : Nat
  isComplete : Bool
deriving DecidableEq

/-- The `ResearchState` constructor: topic set, every other field at its
default. -/
def ResearchState.init (topic : String) : ResearchState :=
  { topic := topic, plan := "", searchResults := [], summary := "",
    report := "", iterationCount := 0, isComplete := false }

/-- The two branch labels of the Evaluator.  `research_graph.ts` spells them
`continue` / `finish` inside its tool output; `research_graph1.ts` spells the
finish branch `"end"` (the label routed to `report_writer`). -/
inductive Decision
  | cont
  | finish
deriving DecidableEq

/-- Result of one tool invocation of `research_graph.ts`: the updated state
(the value the tool stores into `currentResearchState`; unchanged when the tool
does not write it), the string the tool returns, and how many Inference Client
calls the tool attempted. -/
structure ToolOut where
  state : ResearchState
  output : String
  calls : Nat
deriving DecidableEq

/-- Result of the evaluator tool, which returns a decision string but never
writes the shared state. -/
structure EvalOut where
  decision : Decision
  output : String
  calls : Nat
deriving DecidableEq

/-- `generateMockSearchResults` of `research_graph.ts`: six topic-derived
boilerplate entries plus one entry for each of the first four comma-separated,
trimmed plan keywords (`planKeywords.slice(0, 4)`). -/
def generateMockSearchResults (topic plan : String) : List String :=
  let baseResults : List String := [
    topic ++ "相关技术的最新发展动态和突破性进展报告",
    "业内专家对" ++ topic ++ "的深度分析和未来预测研究",
    topic ++ "在实际应用中的成功案例和实施经验总结",
    topic ++ "面临的技术挑战和创新解决方案探讨",
    topic ++ "的市场前景、投资价值和商业模式分析",
    topic ++ "的标准化进展和政策法规影响评估"]
  let planKeywords := (jsSplitComma plan).map jsTrim
  let specificResults := (planKeywords.take 4).map (fun keyword =>
    "关于\"" ++ keyword ++ "\"的最新研究成果、技术进展和应用案例分析")
  baseResults ++ specificResults

/-- `plannerTool` of `research_graph.ts`, modelled on the state decoded from the
tool's JSON input.  Success: `plan := response.trim()`, `iterationCount += 1`.
Failure (`catch`): a deterministic topic-derived fallback plan, and the same
increment. -/
def plannerTool (resp : Option String) (s : ResearchState) : ToolOut :=
  match resp with
  | some response =>
    let plan := jsTrim response
    { state := { s with plan := plan, iterationCount := s.iterationCount + 1 },
      output := "研究计划已制定。第" ++ natStr (s.iterationCount + 1) ++ "轮研究关键词：" ++ plan,
      calls := 1 }
  | none =>
    let fallbackPlan := "关于\"" ++ s.topic ++ "\"的基础研究,相关技术分析,应用前景评估"
    { state := { s with plan := fallbackPlan, iterationCount := s.iterationCount + 1 },
      output := "研究计划已制定（备用方案）。关键词：" ++ fallbackPlan,
      calls := 1 }

/-- `searcherTool` of `research_graph.ts`: replaces `searchResults` with the
mock results; makes no Inference Client call. -/
def searcherTool (s : ResearchState) : ToolOut :=
  let mockResults := generateMockSearchResults s.topic s.plan
  { state := { s with searchResults := mockResults },
    output := "搜索完成。找到" ++ natStr mockResults.length ++ "条相关信息：\n" ++
      String.intercalate "\n"
        (mockResults.enum.map (fun p => natStr (p.1 + 1) ++ ". " ++ p.2)),
    calls := 0 }

/-- `summarizerTool` of `research_graph.ts`.  Empty `searchResults`: return the
sentinel immediately, no inference call, state untouched.  Success:
`summary := response.trim()`.  Failure: summary becomes the previous summary
joined (when non-empty) with the `' | '`-joined search results. -/
def summarizerTool (resp : Option String) (s : ResearchState) : ToolOut :=
  if s.searchResults.isEmpty then
    { state := s, output := "没有搜索结果可以总结", calls := 0 }
  else
    match resp with
    | some response =>
      let newSummary := jsTrim response
      { state := { s with summary := newSummary },
        output := "信息总结完成。更新后的研究总结：\n" ++ newSummary,
        calls := 1 }
    | none =>
      let fallbackSummary := String.intercalate " | " s.searchResults
      let updatedSummary :=
        if s.summary = "" then fallbackSummary
        else s.summary ++ "\n\n新增信息: " ++ fallbackSummary
      { state := { s with summary := updatedSummary },
        output := "信息总结完成（简化版）：" ++ updatedSummary,
        calls := 1 }

/-- `evaluatorTool` of `research_graph.ts`.  Hard cap first: `iterationCount ≥ 3`
answers finish with no inference call.  Otherwise one call; on success the
decision is continue exactly when the lower-cased response contains
`"continue"`; on failure the fallback is continue exactly when
`iterationCount === 1`. -/
def evaluatorTool (resp : Option String) (s : ResearchState) : EvalOut :=
  if 3 ≤ s.iterationCount then
    { decision := Decision.finish,
      output := "finish - 已达到最大研究轮次，建议生成最终报告", calls := 0 }
  else
    match resp with
    | some evaluation =>
      if jsIncludes (jsToLower evaluation) "continue" then
        { decision := Decision.cont,
          output := "continue - 信息还不够充分，建议继续下一轮研究", calls := 1 }
      else
        { decision := Decision.finish,
          output := "finish - 信息已足够充分，可以生成最终报告", calls := 1 }
    | none =>
      { decision := if s.iterationCount = 1 then Decision.cont else Decision.finish,
        output := (if s.iterationCount = 1 then "continue" else "finish") ++
          " - 评估过程出错，采用默认策略",
        calls := 1 }

/-- `reportGeneratorTool` of `research_graph.ts`.  Success:
`report := response.trim()`, `isComplete := true`.  Failure: a fallback report
synthesized from topic, iteration count and summary, and still
`isComplete := true`. -/
def reportGeneratorTool (resp : Option String) (s : ResearchState) : ToolOut :=
  match resp with
  | some response =>
    let report := jsTrim response
    { state := { s with report := report, isComplete := true },
      output := "研究报告生成完成！\n\n" ++ report,
      calls := 1 }
  | none =>
    let fallbackReport := "# " ++ s.topic ++ " - 研究报告\n\n基于 " ++
      natStr s.iterationCount ++ " 轮深度研究，现将主要发现总结如下：\n\n" ++ s.summary
    { state := { s with report := fallbackReport, isComplete := true },
      output := "研究报告生成完成（简化版）：\n" ++ fallbackReport,
      calls := 1 }

/-- The state record of `research_graph1.ts` (`interface ResearchState` there):
`searchResults` and `report` are optional, and there is no `isComplete` field. -/
structure GraphState where
  topic : String
  plan : String
  searchResults : Option (List String)
  summary : String
  report : Option String
  iterationCount : Nat
deriving DecidableEq

/-- The initial state built in `main` of `research_graph1.ts`. -/
def initialGraphState (topic : String) : GraphState :=
  { topic := topic, plan := "", searchResults := none, summary := "",
    report := none, iterationCount := 0 }

/-- `plannerNode` of `research_graph1.ts`: no `catch`, so a failed inference
call yields no successor state.  On success: `plan := response.trim()` and
`iterationCount + 1`.  The second component counts inference calls made. -/
def plannerNode (resp : Option String) (s : GraphState) : Option (GraphState × Nat) :=
  resp.map (fun r =>
    ({ s with plan := jsTrim r, iterationCount := s.iterationCount + 1 }, 1))

/-- `searcherNode` of `research_graph1.ts`: one mock result per comma-separated
plan keyword (all of them, trimmed); no inference call. -/
def searcherNode (s : GraphState) : GraphState × Nat :=
  let mockResults := (jsSplitComma s.plan).map (fun keyword =>
    "关于\"" ++ jsTrim keyword ++ "\"的模拟搜索结果：最新研究论文、市场分析报告和行业新闻。")
  ({ s with searchResults := some mockResults }, 0)

/-- `summarizerNode` of `research_graph1.ts`: no empty-results short-circuit and
no `catch`; it always makes the inference call and overwrites `summary` with the
trimmed response. -/
def summarizerNode (resp : Option String) (s : GraphState) : Option (GraphState × Nat) :=
  resp.map (fun r => ({ s with summary := jsTrim r }, 1))

/-- `shouldContinueNode` of `research_graph1.ts`: hard cap before any inference
(`iterationCount >= 3` returns the finish branch label `"end"` with no call);
below the cap it makes one call and, with no `catch`, a failed call yields no
decision at all. -/
def shouldContinueNode (resp : Option String) (s : GraphState) : Option (Decision × Nat) :=
  if 3 ≤ s.iterationCount then some (Decision.finish, 0)
  else resp.map (fun r =>
    (if jsIncludes (jsToLower r) "continue" then Decision.cont else Decision.finish, 1))

/-- `reportWriterNode` of `research_graph1.ts`: one inference call, no `catch`;
on success `report := response.trim()`. -/
def reportWriterNode (resp : Option String) (s : GraphState) : Option (GraphState × Nat) :=
  resp.map (fun r => ({ s with report := some (jsTrim r) }, 1))

/-- Per-invocation inference responses for a graph run, one stream per node kind
(`planResp k` is the response to the round-`k` planner call, and so on).  Any
behaviour of the Inference Client is some choice of these streams. -/
structure GraphOracle where
  planResp : Nat → Option String
  sumResp : Nat → Option String
  evalResp : Nat → Option String
  repResp : Option String

/-- The loop of the compiled graph of `research_graph1.ts`
(`planner → searcher → summarizer → should_continue`, with the conditional edge
`continue ↦ planner`, `end ↦ report_writer`).  Returns the state reaching the
`report_writer` edge together with the number of planner invocations, or `none`
when an unhandled inference failure aborts the run or the fuel (the host
recursion ceiling) is exhausted. -/
def graphLoop (o : GraphOracle) : Nat → Nat → GraphState → Option (GraphState × Nat)
  | 0, _, _ => none
  | fuel + 1, k, s =>
    match plannerNode (o.planResp k) s with
    | none => none
    | some (s1, _) =>
      match summarizerNode (o.sumResp k) (searcherNode s1).1 with
      | none => none
      | some (s3, _) =>
        match shouldContinueNode (o.evalResp k) s3 with
        | none => none
        | some (Decision.finish, _) => some (s3, 1)
        | some (Decision.cont, _) =>
          match graphLoop o fuel (k + 1) s3 with
          | none => none
          | some (st, n) => some (st, n + 1)

/-- The `recursionLimit: 10` passed to `app.stream` in `research_graph1.ts`,
used here as the loop fuel; the domain hard cap stops the loop after at most
three rounds, so any fuel of at least three gives the same result. -/
def recursionLimit : Nat := 10

/-- A full run of the compiled graph of `research_graph1.ts` from the initial
state: the loop, then `report_writer`, then `END`.  Returns the final state, the
number of planner invocations and the number of report-writer invocations. -/
def runGraph (o : GraphOracle) (topic : String) : Option (GraphState × Nat × Nat) :=
  match graphLoop o recursionLimit 0 (initialGraphState topic) with
  | none => none
  | some (s3, n) =>
    match reportWriterNode o.repResp s3 with
    | none => none
    | some (sf, rc) => some (sf, n, rc)

/-- Per-invocation inference responses for a run over the tools of
`research_graph.ts`, one stream per tool kind. -/
structure ToolOracle where
  planResp : Nat → Option String
  sumResp : Nat → Option String
  evalResp : Nat → Option String
  repResp : Option String

/-- Modelled from the spec: the Workflow Executor sequencing for the tool
variant.  In `research_graph.ts` the tools are sequenced by a LangChain
`AgentExecutor` whose step choice is made by the LLM (third-party library code,
not in this repository); the spec fixes the canonical order
plan → search → summarize → evaluate, looping on continue.  This loop applies
the tool functions of `research_graph.ts` in that order, collecting each
observable state snapshot (each value stored into `currentResearchState`). -/
def toolLoop (o : ToolOracle) : Nat → Nat → ResearchState →
    Option (ResearchState × Nat × List ResearchState)
  | 0, _, _ => none
  | fuel + 1, k, s =>
    let s1 := (plannerTool (o.planResp k) s).state
    let s2 := (searcherTool s1).state
    let s3 := (summarizerTool (o.sumResp k) s2).state
    match (evaluatorTool (o.evalResp k) s3).decision with
    | Decision.finish => some (s3, 1, [s1, s2, s3])
    | Decision.cont =>
      match toolLoop o fuel (k + 1) s3 with
      | none => none
      | some (st, n, tr) => some (st, n + 1, s1 :: s2 :: s3 :: tr)

/-- Modelled from the spec: a complete tool-variant run — the canonical loop
from the freshly constructed state, then the report generator.  Returns the
final state, the number of planner invocations, and every observable state
snapshot in order (initial state, after each state-writing step, final state). -/
def runTools (o : ToolOracle) (topic : String) :
    Option (ResearchState × Nat × List ResearchState) :=
  let s0 := ResearchState.init topic
  match toolLoop o 10 0 s0 with
  | none => none
  | some (s3, n, tr) =>
    let sf := (reportGeneratorTool o.repResp s3).state
    some (sf, n, s0 :: (tr ++ [sf]))

/-- An Inference Client whose every call fails. -/
def failGraphOracle : GraphOracle :=
  { planResp := fun _ => none, sumResp := fun _ => none,
    evalResp := fun _ => none, repResp := none }

/-- A tool-variant Inference Client whose every call fails. -/
def failToolOracle : ToolOracle :=
  { planResp := fun _ => none, sumResp := fun _ => none,
    evalResp := fun _ => none, repResp := none }

/-- An Inference Client that always succeeds and always votes to continue. -/
def allContinueOracle : GraphOracle :=
  { planResp := fun _ => some "k1,k2", sumResp := fun _ => some "新总结",
    evalResp := fun _ => some "continue", repResp := some "最终报告" }

/-- A tool-variant Inference Client whose report response is empty text (the
call succeeds but the model returns an empty string). -/
def emptyReportOracle : ToolOracle :=
  { planResp := fun _ => some "a,b", sumResp := fun _ => some "s",
    evalResp := fun _ => some "finish", repResp := some "" }

/-- A tool-variant Inference Client that finishes in the first round with a
non-empty report. -/
def finishRoundOracle : ToolOracle :=
  { planResp := fun _ => some "k", sumResp := fun _ => some "s",
    evalResp := fun _ => some "finish", repResp := some "r" }

/-- A tool state at the hard cap, used to instantiate hard-cap theorems. -/
def cappedToolState : ResearchState :=
  { ResearchState.init "医疗AI" with iterationCount := 3 }

/-- A graph state at the hard cap, used to instantiate hard-cap theorems. -/
def cappedGraphState : GraphState :=
  { initialGraphState "医疗AI" with iterationCount := 3 }

/-- A tool state below the hard cap (one completed round). -/
def oneRoundToolState : ResearchState :=
  { ResearchState.init "医疗AI" with iterationCount := 1 }

/-- A graph state below the hard cap (one completed round). -/
def oneRoundGraphState : GraphState :=
  { initialGraphState "医疗AI" with iterationCount := 1 }

/-- JSON values as produced by JavaScript's `JSON.parse`. -/
inductive JVal where
  | jstr : String → JVal
  | jnum : Nat → JVal
  | jbool : Bool → JVal
  | jarr : List JVal → JVal
  | jobj : List (String × JVal) → JVal
  | jnull

/-- The escape of one character inside a JSON string literal, exactly as
`JSON.stringify` emits it: `\"`, `\\`, the short escapes for backspace, tab,
line feed, form feed and carriage return, `\u00XX` (lower-case hex) for every
other control character, and the character itself otherwise. -/
def escapeChar (c : Char) : List Char :=
  if c = '"' then ['\\', '"']
  else if c = '\\' then ['\\', '\\']
  else if c.toNat = 8 then ['\\', 'b']
  else if c = '\t' then ['\\', 't']
  else if c = '\n' then ['\\', 'n']
  else if c.toNat = 12 then ['\\', 'f']
  else if c = '\r' then ['\\', 'r']
  else if c.toNat < 32 then
    ['\\', 'u', '0', '0', Nat.digitChar (c.toNat / 16), Nat.digitChar (c.toNat % 16)]
  else [c]

/-- Escape every character of a JSON string body. -/
def escapeChars : List Char → List Char
  | [] => []
  | c :: cs => escapeChar c ++ escapeChars cs

/-- A complete JSON string literal: quote, escaped body, quote. -/
def quoteStr (s : String) : List Char :=
  '"' :: (escapeChars s.data ++ ['"'])

/-- `JSON.stringify` of a boolean. -/
def boolChars (b : Bool) : List Char :=
  if b then ['t', 'r', 'u', 'e'] else ['f', 'a', 'l', 's', 'e']

/-- The tail of a string-array block under `JSON.stringify(·, null, 2)` at
nesting depth one: after an element either `,\n    ` and the next element, or
`\n  ]`. -/
def printStrArrTail : List String → List Char
  | [] => ['\n', ' ', ' ', ']']
  | x :: xs => ',' :: '\n' :: ' ' :: ' ' :: ' ' :: ' ' :: (quoteStr x ++ printStrArrTail xs)

/-- A string array under `JSON.stringify(·, null, 2)` at nesting depth one:
`[]` when empty, otherwise each element on its own line at indent 4 with the
closing bracket at indent 2. -/
def printStrArr : List String → List Char
  | [] => ['[', ']']
  | x :: xs => '[' :: '\n' :: ' ' :: ' ' :: ' ' :: ' ' :: (quoteStr x ++ printStrArrTail xs)

/-- One non-final member of the top-level object under
`JSON.stringify(·, null, 2)`: `"key": value` followed by `,\n  ` and the rest
of the members. -/
def printMemberMore (key : String) (v tail : List Char) : List Char :=
  quoteStr key ++ ':' :: ' ' :: (v ++ (',' :: '\n' :: ' ' :: ' ' :: tail))

/-- The final member of the top-level object: `"key": value` followed by the
closing `\n}` and whatever follows the object. -/
def printMemberLast (key : String) (v tail : List Char) : List Char :=
  quoteStr key ++ ':' :: ' ' :: (v ++ ('\n' :: '}' :: tail))

/-- `ResearchState.toString` of `research_graph.ts`:
`JSON.stringify({topic, plan, searchResults, summary, report, iterationCount,
isComplete}, null, 2)` — the seven fields in declaration order, indent 2. -/
def ResearchState.toString (s : ResearchState) : String :=
  String.mk ('{' :: '\n' :: ' ' :: ' ' ::
    printMemberMore "topic" (quoteStr s.topic)
      (printMemberMore "plan" (quoteStr s.plan)
        (printMemberMore "searchResults" (printStrArr s.searchResults)
          (printMemberMore "summary" (quoteStr s.summary)
            (printMemberMore "report" (quoteStr s.report)
              (printMemberMore "iterationCount" (natChars s.iterationCount)
                (printMemberLast "isComplete" (boolChars s.isComplete) [])))))))

/-- JSON whitespace accepted between tokens by `JSON.parse`. -/
def isJsonWs (c : Char) : Bool :=
  c = ' ' || c = '\t' || c = '\n' || c = '\r'

/-- Skip leading JSON whitespace. -/
def skipWs : List Char → List Char
  | [] => []
  | c :: cs => if isJsonWs c then skipWs cs else c :: cs

/-- The numeric value of a hexadecimal digit. -/
def hexVal (c : Char) : Option Nat :=
  if 48 ≤ c.toNat ∧ c.toNat ≤ 57 then some (c.toNat - 48)
  else if 97 ≤ c.toNat ∧ c.toNat ≤ 102 then some (c.toNat - 87)
  else if 65 ≤ c.toNat ∧ c.toNat ≤ 70 then some (c.toNat - 55)
  else none

/-- Decode a single-character JSON escape (`\" \\ \/ \b \f \n \r \t`). -/
def escDecode (e : Char) : Option Char :=
  if e = '"' then some '"'
  else if e = '\\' then some '\\'
  else if e = '/' then some '/'
  else if e = 'b' then some (Char.ofNat 8)
  else if e = 'f' then some (Char.ofNat 12)
  else if e = 'n' then some '\n'
  else if e = 'r' then some '\r'
  else if e = 't' then some '\t'
  else none

mutual

/-- Parse the body of a JSON string literal after the opening quote, as
`JSON.parse` does: raw characters up to the closing quote (raw control
characters are rejected), with the standard escapes handled by `parseEsc`. -/
def parseStringBody : List Char → Option (List Char × List Char)
  | [] => none
  | c :: cs =>
    if c = '"' then some ([], cs)
    else if c = '\\' then
      match cs with
      | [] => none
      | e :: cs2 => parseEsc e cs2
    else if c.toNat < 32 then none
    else (parseStringBody cs).map (fun p => (c :: p.1, p.2))
termination_by cs => (cs.length, 0)

/-- Parse a JSON string escape: the character after the backslash and the rest
of the literal.  A `\uXXXX` escape whose code is not a Unicode scalar value (a
lone surrogate, which JavaScript strings can hold but Lean characters cannot)
is outside this model and rejected; `JSON.stringify` output never contains
one. -/
def parseEsc (e : Char) (cs : List Char) : Option (List Char × List Char) :=
  if e = 'u' then parseU cs
  else
    match escDecode e with
    | none => none
    | some dc => (parseStringBody cs).map (fun p => (dc :: p.1, p.2))
termination_by (cs.length, 2)

/-- Parse the four hex digits of a `\uXXXX` escape and the rest of the string
literal. -/
def parseU : List Char → Option (List Char × List Char)
  | h1 :: h2 :: h3 :: h4 :: cs3 =>
    match hexVal h1, hexVal h2, hexVal h3, hexVal h4 with
    | some a, some b, some c2, some d =>
      let n := a * 4096 + b * 256 + c2 * 16 + d
      if n < 55296 ∨ (57343 < n ∧ n < 1114112) then
        (parseStringBody cs3).map (fun p => (Char.ofNat n :: p.1, p.2))
      else none
    | _, _, _, _ => none
  | _ => none
termination_by cs => (cs.length, 1)

end

/-- Consume a run of decimal digits, accumulating their value. -/
def parseDigitsAux (acc : Nat) : List Char → Nat × List Char
  | [] => (acc, [])
  | c :: cs =>
    if c.isDigit then parseDigitsAux (acc * 10 + (c.toNat - 48)) cs
    else (acc, c :: cs)

/-- Check whether a digit run is followed by a fraction or exponent marker
(which would make the number a float, outside the typed model). -/
def numberTail : Nat × List Char → Option (Nat × List Char)
  | (n, []) => some (n, [])
  | (n, d :: rest) =>
    if d = '.' ∨ d = 'e' ∨ d = 'E' then none else some (n, d :: rest)

/-- Parse a JSON number, restricted to the nonnegative integers a serialized
`ResearchState` can contain: a digit run not followed by a fraction or an
exponent.  (`JSON.parse` also accepts `-`, fractions and exponents, producing
floats; those never appear in `JSON.stringify` output of the state's `Nat`
counter and are outside the typed model, so they fail here.) -/
def parseNumber : List Char → Option (Nat × List Char)
  | [] => none
  | c :: cs =>
    if c.isDigit then numberTail (parseDigitsAux (c.toNat - 48) cs)
    else none

/-- Expect a fixed run of characters (the tail of `true`/`false`/`null`),
yielding the given value. -/
def parseLit (lit : List Char) (v : JVal) (cs : List Char) : Option (JVal × List Char) :=
  match lit, cs with
  | [], _ => some (v, cs)
  | _ :: _, [] => none
  | l :: ls, c :: cs2 => if c = l then parseLit ls v cs2 else none

mutual

/-- Parse one JSON value (no leading whitespace); `fuel` bounds the recursion
and any fuel of at least the input length suffices. -/
def parseValue : Nat → List Char → Option (JVal × List Char)
  | 0, _ => none
  | fuel + 1, cs =>
    match cs with
    | [] => none
    | c :: cs2 =>
      if c = '"' then
        (parseStringBody cs2).map (fun p => (JVal.jstr (String.mk p.1), p.2))
      else if c = '[' then parseArrTail fuel (skipWs cs2)
      else if c = '{' then parseObjTail fuel (skipWs cs2)
      else if c = 't' then parseLit ['r', 'u', 'e'] (JVal.jbool true) cs2
      else if c = 'f' then parseLit ['a', 'l', 's', 'e'] (JVal.jbool false) cs2
      else if c = 'n' then parseLit ['u', 'l', 'l'] JVal.jnull cs2
      else (parseNumber (c :: cs2)).map (fun p => (JVal.jnum p.1, p.2))
termination_by fuel _ => (fuel, 0)

/-- After `[` and whitespace: either the empty array's `]` or the elements. -/
def parseArrTail (fuel : Nat) (ws : List Char) : Option (JVal × List Char) :=
  match ws with
  | [] => none
  | d :: cs3 =>
    if d = ']' then some (JVal.jarr [], cs3)
    else (parseElems fuel (d :: cs3)).map (fun p => (JVal.jarr p.1, p.2))
termination_by (fuel, 1)

/-- After `{` and whitespace: either the empty object's `}` or the members. -/
def parseObjTail (fuel : Nat) (ws : List Char) : Option (JVal × List Char) :=
  match ws with
  | [] => none
  | d :: cs3 =>
    if d = '}' then some (JVal.jobj [], cs3)
    else (parseMembers fuel (d :: cs3)).map (fun p => (JVal.jobj p.1, p.2))
termination_by (fuel, 1)

/-- Parse the elements of a non-empty JSON array (first element at the head of
the input, no leading whitespace), through the closing bracket. -/
def parseElems : Nat → List Char → Option (List JVal × List Char)
  | 0, _ => none
  | fuel + 1, cs =>
    (parseValue fuel cs).bind (fun p => parseElemsTail fuel p.1 (skipWs p.2))
termination_by fuel _ => (fuel, 0)

/-- After one array element and whitespace: a `,` and the further elements, or
the closing `]`. -/
def parseElemsTail (fuel : Nat) (v : JVal) (ws : List Char) :
    Option (List JVal × List Char) :=
  match ws with
  | [] => none
  | d :: rest2 =>
    if d = ',' then (parseElems fuel (skipWs rest2)).map (fun p => (v :: p.1, p.2))
    else if d = ']' then some ([v], rest2)
    else none
termination_by (fuel, 1)

/-- Parse the members of a non-empty JSON object (first key at the head of the
input, no leading whitespace), through the closing brace. -/
def parseMembers : Nat → List Char → Option (List (String × JVal) × List Char)
  | 0, _ => none
  | fuel + 1, cs =>
    match cs with
    | [] => none
    | c :: cs2 =>
      if c = '"' then
        (parseStringBody cs2).bind (fun kp =>
          parseMemberColon fuel (String.mk kp.1) (skipWs kp.2))
      else none
termination_by fuel _ => (fuel, 0)

/-- After a member key and whitespace: the `:` and the member's value, then the
rest of the object. -/
def parseMemberColon (fuel : Nat) (key : String) (ws : List Char) :
    Option (List (String × JVal) × List Char) :=
  match ws with
  | [] => none
  | d :: rest2 =>
    if d = ':' then
      (parseValue fuel (skipWs rest2)).bind (fun vp =>
        parseMembersTail fuel key vp.1 (skipWs vp.2))
    else none
termination_by (fuel, 2)

/-- After one member's value and whitespace: a `,` and the further members, or
the closing `}`. -/
def parseMembersTail (fuel : Nat) (key : String) (v : JVal) (ws : List Char) :
    Option (List (String × JVal) × List Char) :=
  match ws with
  | [] => none
  | d :: rest4 =>
    if d = ',' then
      (parseMembers fuel (skipWs rest4)).map (fun p => ((key, v) :: p.1, p.2))
    else if d = '}' then some ([(key, v)], rest4)
    else none
termination_by (fuel, 1)

end

/-- `JSON.parse`: the single top-level value with surrounding whitespace
allowed; anything else after it is an error (`none` models the thrown
`SyntaxError`, which `ResearchState.fromString` does not catch). -/
def parseJson (s : String) : Option JVal :=
  match parseValue (s.data.length + 1) (skipWs s.data) with
  | none => none
  | some (v, rest) => if (skipWs rest).isEmpty then some v else none

/-- Interpret a parsed JSON array as the list of strings the field
`searchResults` holds; an element of any other type is outside the typed
model. -/
def strList : List JVal → Option (List String)
  | [] => some []
  | JVal.jstr v :: vs => (strList vs).map (fun l => v :: l)
  | _ => none

/-- One `Object.assign` step: assign one parsed key/value pair onto the typed
state.  A known key whose value has the JavaScript type the class field holds
is assigned; a known key with a value of any other type would take the object
outside the shape `ResearchState` can represent, which the typed model treats
as a failed deserialization; an unknown key only adds an expando property that
no field reflects, leaving the state unchanged. -/
def assignField (s : ResearchState) : String × JVal → Option ResearchState
  | ("topic", JVal.jstr v) => some { s with topic := v }
  | ("plan", JVal.jstr v) => some { s with plan := v }
  | ("searchResults", JVal.jarr vs) =>
    (strList vs).map (fun l => { s with searchResults := l })
  | ("summary", JVal.jstr v) => some { s with summary := v }
  | ("report", JVal.jstr v) => some { s with report := v }
  | ("iterationCount", JVal.jnum n) => some { s with iterationCount := n }
  | ("isComplete", JVal.jbool b) => some { s with isComplete := b }
  | (k, _) =>
    if k = "topic" ∨ k = "plan" ∨ k = "searchResults" ∨ k = "summary" ∨
        k = "report" ∨ k = "iterationCount" ∨ k = "isComplete" then none
    else some s

/-- `Object.assign(state, data)`: assign every parsed member in order. -/
def assignFields (s : ResearchState) : List (String × JVal) → Option ResearchState
  | [] => some s
  | kv :: kvs =>
    match assignField s kv with
    | none => none
    | some s2 => assignFields s2 kvs

/-- The value of a key in a parsed JSON object; later duplicates win, as in
JavaScript. -/
def lookupLast (key : String) : List (String × JVal) → Option JVal
  | [] => none
  | kv :: kvs =>
    match lookupLast key kvs with
    | some v => some v
    | none => if kv.1 = key then some kv.2 else none

/-- The JSON members of a serialized `ResearchState`, in field order, as
`JSON.parse` recovers them from `ResearchState.toString` output. -/
def stateFields (s : ResearchState) : List (String × JVal) :=
  [("topic", JVal.jstr s.topic),
   ("plan", JVal.jstr s.plan),
   ("searchResults", JVal.jarr (s.searchResults.map JVal.jstr)),
   ("summary", JVal.jstr s.summary),
   ("report", JVal.jstr s.report),
   ("iterationCount", JVal.jnum s.iterationCount),
   ("isComplete", JVal.jbool s.isComplete)]

/-- `ResearchState.fromString` of `research_graph.ts`: `JSON.parse(stateStr)`,
then `new ResearchState(data.topic)` (the parse result must be an object whose
`topic` is a string for the typed state to represent it), then
`Object.assign(state, data)` over the members in order. -/
def ResearchState.fromString (str : String) : Option ResearchState :=
  match parseJson str with
  | some (JVal.jobj fields) =>
    match lookupLast "topic" fields with
    | some (JVal.jstr t) => assignFields (ResearchState.init t) fields
    | _ => none
  | _ => none

/- ======================  theorems  ====================== -/

theorem isPrefixOf_append_self (l t : List Char) : l.isPrefixOf (l ++ t) = true := by
  induction l with
  | nil => simp
  | cons x xs ih => simp [List.isPrefixOf_cons₂, ih]

theorem containsSub_of_prefix {m l : List Char} (h : m.isPrefixOf l = true) :
    containsSub m l = true := by
  cases l with
  | nil =>
    cases m with
    | nil => rfl
    | cons a as => simp [List.isPrefixOf_cons_nil] at h
  | cons c cs => simp [containsSub, h]

theorem containsSub_append_self (a m b : List Char) :
    containsSub m (a ++ m ++ b) = true := by
  induction a with
  | nil => simpa using containsSub_of_prefix (isPrefixOf_append_self m b)
  | cons c cs ih =>
    show (m.isPrefixOf (c :: (cs ++ m ++ b)) || containsSub m (cs ++ m ++ b)) = true
    rw [ih, Bool.or_true]

theorem jsIncludes_append (a m b : String) : jsIncludes (a ++ m ++ b) m = true := by
  unfold jsIncludes
  rw [String.data_append, String.data_append]
  exact containsSub_append_self a.data m.data b.data

theorem ne_empty_of_data_ne_nil {s : String} (h : s.data ≠ []) : s ≠ "" := by
  intro e
  rw [e] at h
  exact h rfl

/-- C2: whenever the Evaluator runs on a state with `iterationCount ≥ 3`, it
answers the finish label unconditionally in both variants, making no Inference
Client call at all (so the decision cannot depend on, or require, any inference
output — `resp` and `resp2` are arbitrary, covering failure as well). -/
theorem evaluator_hard_cap (s : ResearchState) (g : GraphState)
    (resp resp2 : Option String)
    (hs : 3 ≤ s.iterationCount) (hg : 3 ≤ g.iterationCount) :
    (evaluatorTool resp s).decision = Decision.finish ∧
    (evaluatorTool resp s).calls = 0 ∧
    shouldContinueNode resp2 g = some (Decision.finish, 0) := by
  unfold evaluatorTool shouldContinueNode
  rw [if_pos hs, if_pos hg]
  exact ⟨rfl, rfl, rfl⟩

theorem evaluator_hard_cap_witness :
    (evaluatorTool (some "please continue the research") cappedToolState).decision =
        Decision.finish ∧
    (evaluatorTool (some "please continue the research") cappedToolState).calls = 0 ∧
    shouldContinueNode (some "please continue the research") cappedGraphState =
        some (Decision.finish, 0) :=
  evaluator_hard_cap cappedToolState cappedGraphState
    (some "please continue the research") (some "please continue the research")
    (by decide) (by decide)

/-- C5: below the hard cap, a successful Evaluator response `r` yields the
continue label exactly when the lower-cased text contains the substring
`"continue"`, and the finish label for every other response, in both variants. -/
theorem evaluator_substring_parse (s : ResearchState) (g : GraphState) (r : String)
    (hs : s.iterationCount < 3) (hg : g.iterationCount < 3) :
    ((evaluatorTool (some r) s).decision = Decision.cont ↔
        jsIncludes (jsToLower r) "continue" = true) ∧
    ((evaluatorTool (some r) s).decision = Decision.finish ↔
        jsIncludes (jsToLower r) "continue" = false) ∧
    shouldContinueNode (some r) g = some
      (if jsIncludes (jsToLower r) "continue" then Decision.cont else Decision.finish, 1) := by
  have hns : ¬ 3 ≤ s.iterationCount := by omega
  have hng : ¬ 3 ≤ g.iterationCount := by omega
  unfold evaluatorTool shouldContinueNode
  rw [if_neg hns, if_neg hng]
  cases h : jsIncludes (jsToLower r) "continue" <;> simp [h]

theorem evaluator_substring_parse_witness :
    (evaluatorTool (some "我认为应该 CONTINUE 研究") oneRoundToolState).decision =
      Decision.cont :=
  (evaluator_substring_parse oneRoundToolState oneRoundGraphState
    "我认为应该 CONTINUE 研究" (by decide) (by decide)).1.mpr (by decide)

/-- C8 as stated is false on the graph variant: `shouldContinueNode` has no
`catch`, so below the cap a failed Inference Client call yields no decision at
all — in particular, at `iterationCount = 1` it does not return the continue
label the claim requires. -/
theorem evaluator_failure_fallback_counterexample :
    shouldContinueNode none
      { topic := "T", plan := "p", searchResults := none, summary := "s",
        report := none, iterationCount := 1 } = none := by decide

/-- C8 amended: in the tool variant (`evaluatorTool` of `research_graph.ts`), if
the Inference Client call fails below the cap, the decision is continue exactly
when `iterationCount = 1` and finish otherwise (after the one failed call);
the graph variant (`shouldContinueNode` of `research_graph1.ts`) has no such
fallback — below the cap a failed call propagates and yields no decision. -/
theorem evaluator_failure_fallback (s : ResearchState) (hs : s.iterationCount < 3) :
    ((evaluatorTool none s).decision =
        if s.iterationCount = 1 then Decision.cont else Decision.finish) ∧
    (evaluatorTool none s).calls = 1 ∧
    (∀ g : GraphState, g.iterationCount < 3 → shouldContinueNode none g = none) := by
  refine ⟨?_, ?_, ?_⟩
  · unfold evaluatorTool
    rw [if_neg (by omega)]
  · unfold evaluatorTool
    rw [if_neg (by omega)]
  · intro g hg
    unfold shouldContinueNode
    rw [if_neg (by omega)]
    rfl

theorem evaluator_failure_fallback_witness :
    (evaluatorTool none oneRoundToolState).decision = Decision.cont :=
  ((evaluator_failure_fallback oneRoundToolState (by decide)).1).trans (by decide)

/-- C9 as stated is false on the graph variant: `summarizerNode` invoked on a
state with absent `searchResults` still makes one Inference Client call and
overwrites `summary` with the response, instead of short-circuiting with a
sentinel. -/
theorem summarizer_short_circuit_counterexample :
    summarizerNode (some "新的总结")
      { topic := "T", plan := "p", searchResults := none, summary := "旧的总结",
        report := none, iterationCount := 1 } =
    some ({ topic := "T", plan := "p", searchResults := none, summary := "新的总结",
            report := none, iterationCount := 1 }, 1) := by decide

/-- C9 amended: the tool-variant Summarizer (`summarizerTool` of
`research_graph.ts`) invoked on empty `searchResults` returns the sentinel
`'没有搜索结果可以总结'` immediately, with no Inference Client call and the
state (in particular `summary`) untouched; the graph variant has no such
short-circuit (see the counterexample). -/
theorem summarizer_short_circuit (s : ResearchState) (resp : Option String)
    (h : s.searchResults = []) :
    summarizerTool resp s = { state := s, output := "没有搜索结果可以总结", calls := 0 } := by
  unfold summarizerTool
  rw [h]
  rfl

theorem summarizer_short_circuit_witness :
    summarizerTool (some "一些总结") (ResearchState.init "医疗AI") =
      { state := ResearchState.init "医疗AI", output := "没有搜索结果可以总结", calls := 0 } :=
  summarizer_short_circuit (ResearchState.init "医疗AI") (some "一些总结") rfl

/-- C10 as stated is false on the tool variant: with the five-term plan
`"a,b,c,d,zzqq"` (the Planner's prompt asks for 3–5 keywords), the term
`"zzqq"` is a plan term, yet no generated search-result string contains it —
only the first four keywords (`slice(0, 4)`) are encoded. -/
theorem searcher_term_coverage_counterexample :
    ("zzqq" ∈ jsSplitComma "a,b,c,d,zzqq") ∧
    ((generateMockSearchResults "T" "a,b,c,d,zzqq").all
      (fun r => !(jsIncludes r (jsTrim "zzqq")))) = true := by decide

/-- C10 amended: the tool-variant Searcher output has length
`6 + min N 4` for `N` comma-separated plan terms (a fixed deterministic
function of `N`), and each of the first four (trimmed) plan terms appears in
the content of some result string; the graph-variant Searcher produces exactly
`N` results and encodes every (trimmed) plan term. -/
theorem searcher_shape (topic plan : String) (g : GraphState) :
    (generateMockSearchResults topic plan).length =
        6 + min ((jsSplitComma plan).length) 4 ∧
    (∀ k, k ∈ (jsSplitComma plan).take 4 →
      (generateMockSearchResults topic plan).any
        (fun r => jsIncludes r (jsTrim k)) = true) ∧
    (∀ rs, (searcherNode g).1.searchResults = some rs →
      rs.length = (jsSplitComma g.plan).length ∧
      (∀ k, k ∈ jsSplitComma g.plan →
        rs.any (fun r => jsIncludes r (jsTrim k)) = true)) := by
  refine ⟨?_, ?_, ?_⟩
  · simp [generateMockSearchResults, List.length_take]
    omega
  · intro k hk
    have hmem : ("关于\"" ++ jsTrim k ++ "\"的最新研究成果、技术进展和应用案例分析") ∈
        generateMockSearchResults topic plan := by
      unfold generateMockSearchResults
      refine List.mem_append_right _ ?_
      have h2 : jsTrim k ∈ ((jsSplitComma plan).map jsTrim).take 4 := by
        rw [← List.map_take]
        exact List.mem_map_of_mem _ hk
      exact List.mem_map_of_mem _ h2
    rw [List.any_eq_true]
    exact ⟨_, hmem, jsIncludes_append _ _ _⟩
  · intro rs hrs
    have hrs' : rs = (jsSplitComma g.plan).map (fun keyword =>
        "关于\"" ++ jsTrim keyword ++ "\"的模拟搜索结果：最新研究论文、市场分析报告和行业新闻。") := by
      simpa [searcherNode] using hrs.symm
    subst hrs'
    refine ⟨by simp, ?_⟩
    intro k hk
    rw [List.any_eq_true]
    exact ⟨_, List.mem_map_of_mem _ hk, jsIncludes_append _ _ _⟩

theorem searcher_shape_witness :
    (generateMockSearchResults "T" "a,b").any (fun r => jsIncludes r (jsTrim "a")) = true :=
  (searcher_shape "T" "a,b" (initialGraphState "T")).2.1 "a" (by decide)

theorem plannerNode_inv {resp : Option String} {s s1 : GraphState} {c : Nat}
    (h : plannerNode resp s = some (s1, c)) :
    s1.iterationCount = s.iterationCount + 1 ∧ s1.topic = s.topic := by
  cases resp with
  | none => simp [plannerNode] at h
  | some r =>
    simp only [plannerNode, Option.map_some', Option.some.injEq, Prod.mk.injEq] at h
    rw [← h.1]
    exact ⟨rfl, rfl⟩

theorem summarizerNode_inv {resp : Option String} {s s3 : GraphState} {c : Nat}
    (h : summarizerNode resp s = some (s3, c)) :
    s3.iterationCount = s.iterationCount ∧ s3.topic = s.topic := by
  cases resp with
  | none => simp [summarizerNode] at h
  | some r =>
    simp only [summarizerNode, Option.map_some', Option.some.injEq, Prod.mk.injEq] at h
    rw [← h.1]
    exact ⟨rfl, rfl⟩

theorem searcherNode_inv (s : GraphState) :
    (searcherNode s).1.iterationCount = s.iterationCount ∧
    (searcherNode s).1.topic = s.topic :=
  ⟨rfl, rfl⟩

theorem reportWriterNode_inv {resp : Option String} {s sf : GraphState} {c : Nat}
    (h : reportWriterNode resp s = some (sf, c)) :
    sf.iterationCount = s.iterationCount ∧ sf.topic = s.topic ∧ c = 1 := by
  cases resp with
  | none => simp [reportWriterNode] at h
  | some r =>
    simp only [reportWriterNode, Option.map_some', Option.some.injEq, Prod.mk.injEq] at h
    rw [← h.1, ← h.2]
    exact ⟨rfl, rfl, rfl⟩

theorem shouldContinueNode_cont {resp : Option String} {s : GraphState} {c : Nat}
    (h : shouldContinueNode resp s = some (Decision.cont, c)) :
    s.iterationCount < 3 := by
  by_cases hc : 3 ≤ s.iterationCount
  · simp [shouldContinueNode, hc] at h
  · omega

theorem graphLoop_sound (o : GraphOracle) :
    ∀ fuel k s st n, graphLoop o fuel k s = some (st, n) →
      st.iterationCount = s.iterationCount + n ∧ st.topic = s.topic ∧ 1 ≤ n ∧
      (s.iterationCount + n ≤ 3 ∨ n = 1) := by
  intro fuel
  induction fuel with
  | zero =>
    intro k s st n h
    simp [graphLoop] at h
  | succ fuel ih =>
    intro k s st n h
    rw [graphLoop] at h
    split at h
    · exact absurd h (by simp)
    · rename_i s1 c1 heq1
      split at h
      · exact absurd h (by simp)
      · rename_i s3 c3 heq3
        obtain ⟨h1i, h1t⟩ := plannerNode_inv heq1
        obtain ⟨h3i, h3t⟩ := summarizerNode_inv heq3
        obtain ⟨h2i, h2t⟩ := searcherNode_inv s1
        split at h
        · exact absurd h (by simp)
        · rename_i c heqd
          simp only [Option.some.injEq, Prod.mk.injEq] at h
          obtain ⟨h5, h6⟩ := h
          subst h5
          subst h6
          refine ⟨by omega, by rw [h3t, h2t, h1t], by omega, by omega⟩
        · rename_i c heqd
          have hlt := shouldContinueNode_cont heqd
          split at h
          · exact absurd h (by simp)
          · rename_i st4 n4 heq4
            simp only [Option.some.injEq, Prod.mk.injEq] at h
            obtain ⟨h5, h6⟩ := h
            subst h5
            subst h6
            obtain ⟨h4i, h4t, h4n, h4b⟩ := ih (k + 1) s3 st4 n4 heq4
            refine ⟨by omega, by rw [h4t, h3t, h2t, h1t], by omega, by omega⟩

theorem graphLoop_total (o : GraphOracle)
    (hp : ∀ k, (o.planResp k).isSome) (hsm : ∀ k, (o.sumResp k).isSome)
    (he : ∀ k, (o.evalResp k).isSome) :
    ∀ fuel k s, 1 ≤ fuel → 3 ≤ s.iterationCount + fuel →
      ∃ p, graphLoop o fuel k s = some p := by
  intro fuel
  induction fuel with
  | zero =>
    intro k s h1 h2
    omega
  | succ fuel ih =>
    intro k s h1 h2
    obtain ⟨r, hr⟩ := Option.isSome_iff_exists.mp (hp k)
    obtain ⟨r2, hr2⟩ := Option.isSome_iff_exists.mp (hsm k)
    obtain ⟨e, hev⟩ := Option.isSome_iff_exists.mp (he k)
    rw [graphLoop]
    split
    · rename_i heq
      rw [hr] at heq
      simp [plannerNode] at heq
    · rename_i s1 c1 heq1
      split
      · rename_i heq
        rw [hr2] at heq
        simp [summarizerNode] at heq
      · rename_i s3 c3 heq3
        obtain ⟨h1i, h1t⟩ := plannerNode_inv heq1
        obtain ⟨h3i, h3t⟩ := summarizerNode_inv heq3
        obtain ⟨h2i, h2t⟩ := searcherNode_inv s1
        split
        · rename_i heq
          rw [hev] at heq
          unfold shouldContinueNode at heq
          split at heq
          · exact absurd heq (by simp)
          · exact absurd heq (by simp [Option.map_some'])
        · exact ⟨_, rfl⟩
        · rename_i c heqd
          have hlt := shouldContinueNode_cont heqd
          obtain ⟨p', hp'⟩ := ih (k + 1) s3 (by omega) (by omega)
          rw [hp']
          exact ⟨_, rfl⟩

theorem runGraph_sound {o : GraphOracle} {topic : String} {sf : GraphState} {n rc : Nat}
    (h : runGraph o topic = some (sf, n, rc)) :
    sf.iterationCount = n ∧ rc = 1 ∧ 1 ≤ n ∧ n ≤ 3 := by
  unfold runGraph at h
  split at h
  · exact absurd h (by simp)
  · rename_i s3 m heq
    split at h
    · exact absurd h (by simp)
    · rename_i sf2 rc2 heq2
      simp only [Option.some.injEq, Prod.mk.injEq] at h
      obtain ⟨h5, h6, h7⟩ := h
      subst h5
      subst h6
      subst h7
      obtain ⟨hi, ht, hn, hb⟩ := graphLoop_sound o recursionLimit 0 _ s3 m heq
      obtain ⟨ri, rt, rc1⟩ := reportWriterNode_inv heq2
      have hz : (initialGraphState topic).iterationCount = 0 := rfl
      refine ⟨by omega, rc1, hn, by omega⟩

/-- C1: for every topic and all successful Evaluator/inference response
sequences (in particular one answering `continue` at every evaluation), a
complete run of the compiled graph of `research_graph1.ts` terminates, invokes
the Planner at most 4 times (at most 3, in fact), and invokes the ReportWriter
exactly once. -/
theorem run_terminates (o : GraphOracle) (topic : String)
    (hp : ∀ k, (o.planResp k).isSome) (hsm : ∀ k, (o.sumResp k).isSome)
    (he : ∀ k, (o.evalResp k).isSome) (hrep : o.repResp.isSome) :
    ∃ sf n, runGraph o topic = some (sf, n, 1) ∧ n ≤ 4 := by
  obtain ⟨⟨s3, m⟩, hloop⟩ := graphLoop_total o hp hsm he recursionLimit 0
    (initialGraphState topic) (by decide)
    (by rw [show (initialGraphState topic).iterationCount = 0 from rfl]; decide)
  obtain ⟨rr, hrr⟩ := Option.isSome_iff_exists.mp hrep
  have hfacts := graphLoop_sound o recursionLimit 0 _ s3 m hloop
  have hz : (initialGraphState topic).iterationCount = 0 := rfl
  refine ⟨{ s3 with report := some (jsTrim rr) }, m, ?_, by omega⟩
  unfold runGraph
  rw [hloop, hrr]
  rfl

theorem run_terminates_witness :
    (runGraph allContinueOracle "T").isSome = true := by
  obtain ⟨sf, n, h, _⟩ := run_terminates allContinueOracle "T"
    (fun _ => rfl) (fun _ => rfl) (fun _ => rfl) rfl
  rw [h]
  rfl

theorem plannerTool_pres (resp : Option String) (s : ResearchState) :
    (plannerTool resp s).state.report = s.report ∧
    (plannerTool resp s).state.isComplete = s.isComplete := by
  cases resp <;> exact ⟨rfl, rfl⟩

theorem searcherTool_pres (s : ResearchState) :
    (searcherTool s).state.report = s.report ∧
    (searcherTool s).state.isComplete = s.isComplete :=
  ⟨rfl, rfl⟩

theorem summarizerTool_pres (resp : Option String) (s : ResearchState) :
    (summarizerTool resp s).state.report = s.report ∧
    (summarizerTool resp s).state.isComplete = s.isComplete := by
  unfold summarizerTool
  split
  · exact ⟨rfl, rfl⟩
  · cases resp
    · split <;> exact ⟨rfl, rfl⟩
    · exact ⟨rfl, rfl⟩

/-- C6: (i) in both variants, the Planner — on its success path and, for the
tool variant, on its inference-failure fallback path — increases
`iterationCount` by exactly 1; (ii) no other step (Searcher, Summarizer,
Evaluator, ReportWriter) changes it (the evaluator of either variant never
writes the state at all); (iii) hence a complete graph run ends with
`iterationCount` equal to the number of planning rounds. -/
theorem iteration_counter :
    (∀ resp s, (plannerTool resp s).state.iterationCount = s.iterationCount + 1) ∧
    (∀ s, (searcherTool s).state.iterationCount = s.iterationCount) ∧
    (∀ resp s, (summarizerTool resp s).state.iterationCount = s.iterationCount) ∧
    (∀ resp s, (reportGeneratorTool resp s).state.iterationCount = s.iterationCount) ∧
    (∀ resp s p, plannerNode resp s = some p →
      p.1.iterationCount = s.iterationCount + 1) ∧
    (∀ s, (searcherNode s).1.iterationCount = s.iterationCount) ∧
    (∀ resp s p, summarizerNode resp s = some p →
      p.1.iterationCount = s.iterationCount) ∧
    (∀ resp s p, reportWriterNode resp s = some p →
      p.1.iterationCount = s.iterationCount) ∧
    (∀ o topic sf n rc, runGraph o topic = some (sf, n, rc) →
      sf.iterationCount = n) := by
  refine ⟨?_, ?_, ?_, ?_, ?_, ?_, ?_, ?_, ?_⟩
  · intro resp s
    cases resp <;> rfl
  · intro s
    rfl
  · intro resp s
    unfold summarizerTool
    split
    · rfl
    · cases resp
      · split <;> rfl
      · rfl
  · intro resp s
    cases resp <;> rfl
  · intro resp s p h
    obtain ⟨s1, c⟩ := p
    exact (plannerNode_inv h).1
  · intro s
    rfl
  · intro resp s p h
    obtain ⟨s3, c⟩ := p
    exact (summarizerNode_inv h).1
  · intro resp s p h
    obtain ⟨sf, c⟩ := p
    exact (reportWriterNode_inv h).1
  · intro o topic sf n rc h
    exact (runGraph_sound h).1

theorem iteration_counter_witness :
    ({ topic := "T", plan := "p", searchResults := none, summary := "",
       report := none, iterationCount := 1 } : GraphState).iterationCount =
      (initialGraphState "T").iterationCount + 1 :=
  iteration_counter.2.2.2.2.1 (some "p") (initialGraphState "T")
    ({ topic := "T", plan := "p", searchResults := none, summary := "",
       report := none, iterationCount := 1 }, 1) (by decide)

theorem prefixed_ne_empty (a b c d e : String) :
    ("# " ++ a ++ b ++ c ++ d ++ e) ≠ "" := by
  intro h
  have hl := congrArg String.length h
  simp only [String.length_append] at hl
  have h2 : "# ".length = 2 := rfl
  have h0 : "".length = 0 := rfl
  omega

/-- C4 as stated is false on the graph variant: in `research_graph1.ts` no node
has a fallback — a failed inference call in the Planner yields no successor
state at all, and a run whose Inference Client always fails aborts with no
final state (so no state with `isComplete` / non-empty report is returned). -/
theorem fallback_counterexample :
    plannerNode none (initialGraphState "X") = none ∧
    runGraph failGraphOracle "X" = none := by decide

/-- C4 amended: in the tool variant (`research_graph.ts`) every step that calls
the Inference Client has a deterministic local fallback, so the canonical
workflow over these tools, run with an always-failing client, still returns a
state with `isComplete = true` and a non-empty report within the 4-round bound
(it uses exactly 2 planning rounds); the graph variant has no fallbacks and
aborts instead (see the counterexample). -/
theorem fallback_run (topic : String) :
    ∃ p, runTools failToolOracle topic = some p ∧
      p.1.isComplete = true ∧ p.1.report ≠ "" ∧ p.2.1 ≤ 4 := by
  refine ⟨_, rfl, rfl, ?_, ?_⟩
  · exact prefixed_ne_empty topic _ _ _ _
  · exact (by norm_num : (1 : Nat) + 1 ≤ 4)

theorem toolLoop_inv (o : ToolOracle) :
    ∀ fuel k s st n tr, toolLoop o fuel k s = some (st, n, tr) →
      s.report = "" → s.isComplete = false →
      (st.report = "" ∧ st.isComplete = false ∧
        ∀ x ∈ tr, x.report = "" ∧ x.isComplete = false) := by
  intro fuel
  induction fuel with
  | zero =>
    intro k s st n tr h hr hc
    simp [toolLoop] at h
  | succ fuel ih =>
    intro k s st n tr h hr hc
    simp only [toolLoop] at h
    obtain ⟨q1r, q1c⟩ := plannerTool_pres (o.planResp k) s
    obtain ⟨q2r, q2c⟩ := searcherTool_pres (plannerTool (o.planResp k) s).state
    obtain ⟨q3r, q3c⟩ := summarizerTool_pres (o.sumResp k)
      (searcherTool (plannerTool (o.planResp k) s).state).state
    split at h
    · simp only [Option.some.injEq, Prod.mk.injEq] at h
      obtain ⟨h5, h6, h7⟩ := h
      subst h5
      subst h6
      subst h7
      refine ⟨by rw [q3r, q2r, q1r, hr], by rw [q3c, q2c, q1c, hc], ?_⟩
      intro x hx
      simp only [List.mem_cons, List.not_mem_nil, or_false] at hx
      rcases hx with rfl | rfl | rfl
      · exact ⟨by rw [q1r, hr], by rw [q1c, hc]⟩
      · exact ⟨by rw [q2r, q1r, hr], by rw [q2c, q1c, hc]⟩
      · exact ⟨by rw [q3r, q2r, q1r, hr], by rw [q3c, q2c, q1c, hc]⟩
    · split at h
      · exact absurd h (by simp)
      · rename_i st4 n4 tr4 heq4
        simp only [Option.some.injEq, Prod.mk.injEq] at h
        obtain ⟨h5, h6, h7⟩ := h
        subst h5
        subst h6
        subst h7
        obtain ⟨i1, i2, i3⟩ := ih (k + 1) _ st4 n4 tr4 heq4
          (by rw [q3r, q2r, q1r, hr]) (by rw [q3c, q2c, q1c, hc])
        refine ⟨i1, i2, ?_⟩
        intro x hx
        simp only [List.mem_cons] at hx
        rcases hx with rfl | rfl | rfl | hx
        · exact ⟨by rw [q1r, hr], by rw [q1c, hc]⟩
        · exact ⟨by rw [q2r, q1r, hr], by rw [q2c, q1c, hc]⟩
        · exact ⟨by rw [q3r, q2r, q1r, hr], by rw [q3c, q2c, q1c, hc]⟩
        · exact i3 x hx

theorem reportGeneratorTool_complete (resp : Option String) (s : ResearchState) :
    (reportGeneratorTool resp s).state.isComplete = true := by
  cases resp <;> rfl

/-- C3 as stated is false: when the ReportWriter's inference call succeeds but
the model returns empty text, the success path stores `report = ''.trim()` (the
empty string) while setting `isComplete = true`, so the final observable
snapshot of that run has `isComplete = true` with an empty `report`. -/
theorem completion_invariant_counterexample :
    (runTools emptyReportOracle "T").map
      (fun p => (p.1.report, p.1.isComplete)) = some ("", true) := by decide

/-- C3 amended: at every observable state snapshot of a tool-variant workflow
run — initial state, after each state-writing step, and on the ReportWriter's
failure path — `report` is non-empty iff `isComplete` is true, provided that
when the ReportWriter's inference call succeeds its response is non-empty after
trimming (the failure path always produces a non-empty fallback report). -/
theorem completion_invariant (o : ToolOracle) (topic : String)
    (hrep : ∀ t, o.repResp = some t → jsTrim t ≠ "") :
    ∀ p, runTools o topic = some p →
      ∀ s ∈ p.2.2, (s.report ≠ "" ↔ s.isComplete = true) := by
  intro p h s hs
  simp only [runTools] at h
  split at h
  · exact absurd h (by simp)
  · rename_i s3 n tr heq
    cases h
    obtain ⟨i1, i2, i3⟩ := toolLoop_inv o 10 0 (ResearchState.init topic) s3 n tr heq rfl rfl
    have hfc : (reportGeneratorTool o.repResp s3).state.isComplete = true :=
      reportGeneratorTool_complete o.repResp s3
    have hfr : (reportGeneratorTool o.repResp s3).state.report ≠ "" := by
      cases ho : o.repResp with
      | none => exact prefixed_ne_empty s3.topic _ _ _ _
      | some t => exact hrep t ho
    simp only [List.mem_cons, List.mem_append, List.mem_singleton, List.not_mem_nil,
      or_false] at hs
    rcases hs with rfl | hs | rfl
    · simp [ResearchState.init]
    · obtain ⟨xr, xc⟩ := i3 s hs
      rw [xr, xc]
      simp
    · simp [hfr, hfc]

theorem completion_invariant_witness :
    ((ResearchState.init "T").report ≠ "" ↔ (ResearchState.init "T").isComplete = true) := by
  refine completion_invariant finishRoundOracle "T" ?_ _ rfl (ResearchState.init "T") ?_
  · intro t ht
    have h2 : some "r" = some t := ht
    cases h2
    decide
  · exact List.mem_cons_self _ _

theorem hexVal_digitChar : ∀ v, v < 16 → hexVal (Nat.digitChar v) = some v := by decide

theorem mk_data (s : String) : String.mk s.data = s := rfl

theorem parseStringBody_cons_plain {c : Char} {xs cs rest : List Char}
    (hq : ¬ c = '"') (hb : ¬ c = '\\') (hc : ¬ c.toNat < 32)
    (h : parseStringBody xs = some (cs, rest)) :
    parseStringBody (c :: xs) = some (c :: cs, rest) := by
  rw [parseStringBody.eq_def]
  simp only [if_neg hq, if_neg hb, if_neg hc, h]
  rfl

theorem parseStringBody_cons_esc {e dc : Char} {xs cs rest : List Char}
    (hu : ¬ e = 'u') (hdec : escDecode e = some dc)
    (h : parseStringBody xs = some (cs, rest)) :
    parseStringBody ('\\' :: e :: xs) = some (dc :: cs, rest) := by
  rw [parseStringBody]
  rw [if_neg (by decide), if_pos rfl]
  rw [parseEsc, if_neg hu, hdec, h]
  rfl

theorem parseStringBody_escape : ∀ (d : List Char) (rest : List Char),
    parseStringBody (escapeChars d ++ '"' :: rest) = some (d, rest) := by
  intro d
  induction d with
  | nil =>
    intro rest
    rw [show escapeChars [] ++ '"' :: rest = '"' :: rest from rfl]
    rw [parseStringBody.eq_def]
    simp
  | cons c cs ih =>
    intro rest
    rw [show escapeChars (c :: cs) = escapeChar c ++ escapeChars cs from rfl,
      List.append_assoc]
    by_cases h1 : c = '"'
    · subst h1
      rw [show escapeChar '"' = ['\\', '"'] from rfl]
      simp only [List.cons_append, List.nil_append]
      exact parseStringBody_cons_esc (by decide) rfl (ih rest)
    · by_cases h2 : c = '\\'
      · subst h2
        rw [show escapeChar '\\' = ['\\', '\\'] from rfl]
        simp only [List.cons_append, List.nil_append]
        exact parseStringBody_cons_esc (by decide) rfl (ih rest)
      · by_cases h3 : c.toNat = 8
        · have hc : c = Char.ofNat 8 := by rw [← h3, Char.ofNat_toNat]
          subst hc
          rw [show escapeChar (Char.ofNat 8) = ['\\', 'b'] from by decide]
          simp only [List.cons_append, List.nil_append]
          exact parseStringBody_cons_esc (by decide) (by decide) (ih rest)
        · by_cases h4 : c = '\t'
          · subst h4
            rw [show escapeChar '\t' = ['\\', 't'] from by decide]
            simp only [List.cons_append, List.nil_append]
            exact parseStringBody_cons_esc (by decide) (by decide) (ih rest)
          · by_cases h5 : c = '\n'
            · subst h5
              rw [show escapeChar '\n' = ['\\', 'n'] from by decide]
              simp only [List.cons_append, List.nil_append]
              exact parseStringBody_cons_esc (by decide) (by decide) (ih rest)
            · by_cases h6 : c.toNat = 12
              · have hc : c = Char.ofNat 12 := by rw [← h6, Char.ofNat_toNat]
                subst hc
                rw [show escapeChar (Char.ofNat 12) = ['\\', 'f'] from by decide]
                simp only [List.cons_append, List.nil_append]
                exact parseStringBody_cons_esc (by decide) (by decide) (ih rest)
              · by_cases h7 : c = '\r'
                · subst h7
                  rw [show escapeChar '\r' = ['\\', 'r'] from by decide]
                  simp only [List.cons_append, List.nil_append]
                  exact parseStringBody_cons_esc (by decide) (by decide) (ih rest)
                · by_cases h8 : c.toNat < 32
                  · rw [show escapeChar c = ['\\', 'u', '0', '0',
                        Nat.digitChar (c.toNat / 16), Nat.digitChar (c.toNat % 16)] from by
                      rw [escapeChar, if_neg h1, if_neg h2, if_neg h3, if_neg h4,
                        if_neg h5, if_neg h6, if_neg h7, if_pos h8]]
                    simp only [List.cons_append, List.nil_append]
                    rw [parseStringBody]
                    rw [if_neg (by decide), if_pos rfl]
                    rw [parseEsc, if_pos rfl]
                    rw [parseU]
                    rw [show hexVal '0' = some 0 from rfl]
                    rw [hexVal_digitChar (c.toNat / 16) (by omega)]
                    rw [hexVal_digitChar (c.toNat % 16) (by omega)]
                    simp only []
                    rw [if_pos (by omega)]
                    rw [ih rest]
                    have hn : 0 * 4096 + 0 * 256 + c.toNat / 16 * 16 + c.toNat % 16 =
                        c.toNat := by omega
                    rw [hn, Char.ofNat_toNat]
                    rfl
                  · rw [show escapeChar c = [c] from by
                      rw [escapeChar, if_neg h1, if_neg h2, if_neg h3, if_neg h4,
                        if_neg h5, if_neg h6, if_neg h7, if_neg h8]]
                    simp only [List.cons_append, List.nil_append]
                    exact parseStringBody_cons_plain h1 h2 h8 (ih rest)

theorem parseValue_quote (fuel : Nat) (x : String) (rest : List Char) :
    parseValue (fuel + 1) (quoteStr x ++ rest) = some (JVal.jstr x, rest) := by
  rw [show quoteStr x ++ rest = '"' :: (escapeChars x.data ++ '"' :: rest) from by
    simp [quoteStr]]
  rw [parseValue]
  simp +decide [parseStringBody_escape, mk_data]

theorem parseValue_bool (fuel : Nat) (b : Bool) (rest : List Char) :
    parseValue (fuel + 1) (boolChars b ++ rest) = some (JVal.jbool b, rest) := by
  cases b
  · rw [show boolChars false ++ rest = 'f' :: 'a' :: 'l' :: 's' :: 'e' :: rest from rfl]
    rw [parseValue]
    simp only [if_neg (by decide : ¬ ('f' : Char) = '"'),
      if_neg (by decide : ¬ ('f' : Char) = '['), if_neg (by decide : ¬ ('f' : Char) = '{'),
      if_neg (by decide : ¬ ('f' : Char) = 't'), if_pos rfl]
    rw [parseLit, if_pos rfl, parseLit, if_pos rfl, parseLit, if_pos rfl, parseLit,
      if_pos rfl, parseLit]
    simp
  · rw [show boolChars true ++ rest = 't' :: 'r' :: 'u' :: 'e' :: rest from rfl]
    rw [parseValue]
    simp only [if_neg (by decide : ¬ ('t' : Char) = '"'),
      if_neg (by decide : ¬ ('t' : Char) = '['), if_neg (by decide : ¬ ('t' : Char) = '{'),
      if_pos rfl]
    rw [parseLit, if_pos rfl, parseLit, if_pos rfl, parseLit, if_pos rfl, parseLit]
    simp


theorem digitChar_val : ∀ n, n < 10 → ((Nat.digitChar n).toNat - 48 = n ∧
    (Nat.digitChar n).isDigit = true) := by decide

theorem natCharsCore_acc : ∀ fuel n acc,
    natCharsCore fuel n acc = natCharsCore fuel n [] ++ acc := by
  intro fuel
  induction fuel with
  | zero =>
    intro n acc
    rfl
  | succ f ih =>
    intro n acc
    by_cases h : n < 10
    · rw [natCharsCore, if_pos h, natCharsCore, if_pos h]
      rfl
    · rw [natCharsCore, if_neg h, natCharsCore, if_neg h]
      rw [ih (n / 10) (Nat.digitChar (n % 10) :: acc), ih (n / 10) [Nat.digitChar (n % 10)]]
      simp

theorem natCharsCore_digits : ∀ fuel n acc,
    (∀ c ∈ acc, c.isDigit = true) →
    ∀ c ∈ natCharsCore fuel n acc, c.isDigit = true := by
  intro fuel
  induction fuel with
  | zero =>
    intro n acc hacc
    exact hacc
  | succ f ih =>
    intro n acc hacc c hc
    by_cases h : n < 10
    · rw [natCharsCore, if_pos h] at hc
      rcases List.mem_cons.mp hc with rfl | hm
      · exact (digitChar_val n h).2
      · exact hacc c hm
    · rw [natCharsCore, if_neg h] at hc
      refine ih (n / 10) _ ?_ c hc
      intro c2 hc2
      rcases List.mem_cons.mp hc2 with rfl | hm
      · exact (digitChar_val (n % 10) (Nat.mod_lt n (by omega))).2
      · exact hacc c2 hm

theorem natCharsCore_ne_nil : ∀ fuel n acc, natCharsCore (fuel + 1) n acc ≠ [] := by
  intro fuel
  induction fuel with
  | zero =>
    intro n acc
    by_cases h : n < 10
    · rw [natCharsCore, if_pos h]
      simp
    · rw [natCharsCore, if_neg h]
      rw [natCharsCore]
      simp
  | succ f ih =>
    intro n acc
    by_cases h : n < 10
    · rw [natCharsCore, if_pos h]
      simp
    · rw [natCharsCore, if_neg h]
      exact ih (n / 10) _

theorem foldl_natCharsCore : ∀ fuel n a, n < 10 ^ fuel →
    List.foldl (fun x c => x * 10 + (c.toNat - 48)) a (natCharsCore fuel n []) =
      a * 10 ^ (natCharsCore fuel n []).length + n := by
  intro fuel
  induction fuel with
  | zero =>
    intro n a h
    have hn : n = 0 := by simpa using h
    subst hn
    simp [natCharsCore]
  | succ f ih =>
    intro n a h
    by_cases hlt : n < 10
    · rw [natCharsCore, if_pos hlt]
      simp [List.foldl, (digitChar_val n hlt).1]
    · rw [natCharsCore, if_neg hlt]
      rw [natCharsCore_acc]
      have hdiv : n / 10 < 10 ^ f := by
        rw [Nat.div_lt_iff_lt_mul (by omega)]
        calc n < 10 ^ (f + 1) := h
          _ = 10 ^ f * 10 := by rw [Nat.pow_succ]
      rw [List.foldl_append, ih (n / 10) a hdiv]
      simp only [List.foldl, List.length_append, List.length_cons, List.length_nil]
      rw [(digitChar_val (n % 10) (Nat.mod_lt n (by omega))).1]
      rw [Nat.pow_succ]
      have hmod := Nat.div_add_mod n 10
      ring_nf
      omega

theorem isDigit_ne {c : Char} (h : c.isDigit = true) :
    ¬ c = '"' ∧ ¬ c = '[' ∧ ¬ c = '{' ∧ ¬ c = 't' ∧ ¬ c = 'f' ∧ ¬ c = 'n' := by
  refine ⟨?_, ?_, ?_, ?_, ?_, ?_⟩ <;> intro hc <;> subst hc <;> simp at h

theorem parseDigitsAux_run : ∀ (ds : List Char) (a : Nat) (rest : List Char),
    (∀ c ∈ ds, c.isDigit = true) →
    (∀ d t, rest = d :: t → d.isDigit = false) →
    parseDigitsAux a (ds ++ rest) =
      (List.foldl (fun x c => x * 10 + (c.toNat - 48)) a ds, rest) := by
  intro ds
  induction ds with
  | nil =>
    intro a rest hds hrest
    cases rest with
    | nil => rfl
    | cons d t =>
      rw [show ([] : List Char) ++ d :: t = d :: t from rfl]
      rw [parseDigitsAux, if_neg (by simp [hrest d t rfl])]
      rfl
  | cons c cs ih =>
    intro a rest hds hrest
    rw [List.cons_append, parseDigitsAux, if_pos (hds c (by simp))]
    rw [ih _ rest (fun x hx => hds x (by simp [hx])) hrest]
    rfl

theorem natChars_shape (n : Nat) : ∃ d t, natChars n = d :: t ∧ d.isDigit = true := by
  have hne := natCharsCore_ne_nil n n []
  rcases hco : natCharsCore (n + 1) n [] with _ | ⟨d, t⟩
  · exact absurd hco hne
  · refine ⟨d, t, hco, ?_⟩
    refine natCharsCore_digits (n + 1) n [] (by simp) d ?_
    rw [hco]
    simp

theorem natChars_lt (n : Nat) : n < 10 ^ (n + 1) := by
  calc n < 10 ^ n := Nat.lt_pow_self (by omega) n
    _ ≤ 10 ^ (n + 1) := Nat.pow_le_pow_right (by omega) (by omega)

theorem parseDigitsAux_natChars (n : Nat) (rest : List Char)
    (hrest : ∀ d t, rest = d :: t → d.isDigit = false) :
    parseDigitsAux 0 (natChars n ++ rest) = (n, rest) := by
  rw [parseDigitsAux_run (natChars n) 0 rest
    (natCharsCore_digits (n + 1) n [] (by simp)) hrest]
  rw [show natChars n = natCharsCore (n + 1) n [] from rfl]
  rw [foldl_natCharsCore (n + 1) n 0 (natChars_lt n)]
  simp

theorem parseNumber_natChars (n : Nat) (rest : List Char)
    (hrest : ∀ d t, rest = d :: t →
      (d.isDigit = false ∧ ¬ d = '.' ∧ ¬ d = 'e' ∧ ¬ d = 'E')) :
    parseNumber (natChars n ++ rest) = some (n, rest) := by
  obtain ⟨d, t, hnc, hd⟩ := natChars_shape n
  have hfull : parseDigitsAux 0 (natChars n ++ rest) = (n, rest) :=
    parseDigitsAux_natChars n rest (fun x y h => (hrest x y h).1)
  rw [hnc] at hfull
  rw [List.cons_append, parseDigitsAux, if_pos hd] at hfull
  rw [hnc, List.cons_append, parseNumber, if_pos hd]
  rw [show (0 * 10 + (d.toNat - 48)) = d.toNat - 48 from by omega] at hfull
  rw [hfull]
  cases rest with
  | nil => rfl
  | cons x xs =>
    obtain ⟨_, h1, h2, h3⟩ := hrest x xs rfl
    rw [numberTail, if_neg (by simp [h1, h2, h3])]

theorem parseValue_natChars (fuel n : Nat) (rest : List Char)
    (hrest : ∀ d t, rest = d :: t →
      (d.isDigit = false ∧ ¬ d = '.' ∧ ¬ d = 'e' ∧ ¬ d = 'E')) :
    parseValue (fuel + 1) (natChars n ++ rest) = some (JVal.jnum n, rest) := by
  obtain ⟨d, t, hnc, hd⟩ := natChars_shape n
  obtain ⟨n1, n2, n3, n4, n5, n6⟩ := isDigit_ne hd
  have hnum := parseNumber_natChars n rest hrest
  rw [hnc, List.cons_append]
  rw [hnc, List.cons_append] at hnum
  rw [parseValue]
  simp only [if_neg n1, if_neg n2, if_neg n3, if_neg n4, if_neg n5, if_neg n6]
  rw [hnum]
  rfl


theorem skipWs_ws {c : Char} {l : List Char} (h : isJsonWs c = true) :
    skipWs (c :: l) = skipWs l := by
  rw [skipWs, if_pos h]

theorem skipWs_nonws {c : Char} {l : List Char} (h : isJsonWs c = false) :
    skipWs (c :: l) = c :: l := by
  rw [skipWs, if_neg (by simp [h])]

theorem quoteStr_cons (k : String) (X : List Char) :
    quoteStr k ++ X = '"' :: (escapeChars k.data ++ ('"' :: X)) := by
  simp [quoteStr]

theorem skipWs_quoteStr (k : String) (X : List Char) :
    skipWs (quoteStr k ++ X) = quoteStr k ++ X := by
  rw [quoteStr_cons, skipWs_nonws (by decide), ← quoteStr_cons]

theorem parseElems_print : ∀ (xs : List String) (x : String) (fuel : Nat) (rest : List Char),
    parseElems (xs.length + fuel + 2) (quoteStr x ++ (printStrArrTail xs ++ rest)) =
      some ((x :: xs).map JVal.jstr, rest) := by
  intro xs
  induction xs with
  | nil =>
    intro x fuel rest
    rw [show ([] : List String).length + fuel + 2 = (fuel + 1) + 1 from by simp]
    rw [parseElems]
    rw [parseValue_quote fuel x (printStrArrTail [] ++ rest)]
    simp only [Option.bind]
    rw [show printStrArrTail [] ++ rest = '\n' :: ' ' :: ' ' :: ']' :: rest from rfl]
    rw [skipWs_ws (by decide), skipWs_ws (by decide), skipWs_ws (by decide),
      skipWs_nonws (by decide)]
    rw [parseElemsTail]
    rw [if_neg (by decide), if_pos rfl]
    simp
  | cons y ys ih =>
    intro x fuel rest
    rw [show (y :: ys).length + fuel + 2 = (ys.length + fuel + 2) + 1 from by
      simp [List.length_cons]; omega]
    rw [parseElems]
    rw [show ys.length + fuel + 2 = (ys.length + fuel + 1) + 1 from by omega]
    rw [parseValue_quote (ys.length + fuel + 1) x (printStrArrTail (y :: ys) ++ rest)]
    simp only [Option.bind]
    rw [show printStrArrTail (y :: ys) ++ rest =
      ',' :: '\n' :: ' ' :: ' ' :: ' ' :: ' ' :: (quoteStr y ++ (printStrArrTail ys ++ rest)) from by
      simp [printStrArrTail]]
    rw [skipWs_nonws (by decide)]
    rw [parseElemsTail]
    rw [if_pos rfl]
    rw [skipWs_ws (by decide), skipWs_ws (by decide), skipWs_ws (by decide),
      skipWs_ws (by decide), skipWs_ws (by decide), skipWs_quoteStr]
    rw [show (ys.length + fuel + 1) + 1 = ys.length + fuel + 2 from by omega]
    rw [ih y fuel rest]
    simp

theorem parseValue_arr (fuel : Nat) (l : List String) (rest : List Char) :
    parseValue (l.length + fuel + 3) (printStrArr l ++ rest) =
      some (JVal.jarr (l.map JVal.jstr), rest) := by
  cases l with
  | nil =>
    rw [show ([] : List String).length + fuel + 3 = (fuel + 2) + 1 from by simp]
    rw [show printStrArr [] ++ rest = '[' :: ']' :: rest from rfl]
    rw [parseValue]
    simp only [if_neg (by decide : ¬ ('[' : Char) = '"'), if_pos rfl]
    rw [skipWs_nonws (by decide)]
    rw [parseArrTail]
    rw [if_pos rfl]
    simp
  | cons x xs =>
    rw [show (x :: xs).length + fuel + 3 = (xs.length + fuel + 3) + 1 from by
      simp [List.length_cons]; omega]
    rw [show printStrArr (x :: xs) ++ rest =
      '[' :: '\n' :: ' ' :: ' ' :: ' ' :: ' ' :: (quoteStr x ++ (printStrArrTail xs ++ rest)) from by
      simp [printStrArr]]
    rw [parseValue]
    rw [if_neg (by decide : ¬ ('[' : Char) = '"'), if_pos (show ('[' : Char) = '[' from rfl)]
    rw [skipWs_ws (by decide), skipWs_ws (by decide), skipWs_ws (by decide),
      skipWs_ws (by decide), skipWs_ws (by decide), skipWs_quoteStr]
    rw [quoteStr_cons]
    rw [parseArrTail]
    rw [if_neg (by decide)]
    rw [← quoteStr_cons]
    rw [show xs.length + fuel + 3 = xs.length + (fuel + 1) + 2 from by omega]
    rw [parseElems_print xs x (fuel + 1) rest]
    rfl


theorem parseMembers_more (fuel : Nat) (key : String) (V tail : List Char) (v : JVal)
    (ms : List (String × JVal)) (rest : List Char)
    (hnw : skipWs (V ++ (',' :: '\n' :: ' ' :: ' ' :: tail)) =
      V ++ (',' :: '\n' :: ' ' :: ' ' :: tail))
    (hv : parseValue fuel (V ++ (',' :: '\n' :: ' ' :: ' ' :: tail)) =
      some (v, ',' :: '\n' :: ' ' :: ' ' :: tail))
    (hms : parseMembers fuel (skipWs tail) = some (ms, rest)) :
    parseMembers (fuel + 1) (printMemberMore key V tail) = some ((key, v) :: ms, rest) := by
  rw [show printMemberMore key V tail =
      '"' :: (escapeChars key.data ++ ('"' :: (':' :: ' ' :: (V ++
        (',' :: '\n' :: ' ' :: ' ' :: tail))))) from by
    simp [printMemberMore, quoteStr]]
  rw [parseMembers]
  rw [if_pos rfl]
  rw [parseStringBody_escape key.data (':' :: ' ' :: (V ++ (',' :: '\n' :: ' ' :: ' ' :: tail)))]
  simp only [Option.bind]
  rw [skipWs_nonws (by decide)]
  rw [parseMemberColon]
  rw [if_pos rfl]
  rw [skipWs_ws (by decide), hnw, hv]
  simp only [Option.bind]
  rw [skipWs_nonws (by decide)]
  rw [parseMembersTail]
  rw [if_pos rfl]
  rw [skipWs_ws (by decide), skipWs_ws (by decide), skipWs_ws (by decide), hms]
  rw [mk_data]
  rfl

theorem parseMembers_last (fuel : Nat) (key : String) (V tailrest : List Char) (v : JVal)
    (hnw : skipWs (V ++ ('\n' :: '}' :: tailrest)) = V ++ ('\n' :: '}' :: tailrest))
    (hv : parseValue fuel (V ++ ('\n' :: '}' :: tailrest)) =
      some (v, '\n' :: '}' :: tailrest)) :
    parseMembers (fuel + 1) (printMemberLast key V tailrest) = some ([(key, v)], tailrest) := by
  rw [show printMemberLast key V tailrest =
      '"' :: (escapeChars key.data ++ ('"' :: (':' :: ' ' :: (V ++
        ('\n' :: '}' :: tailrest))))) from by
    simp [printMemberLast, quoteStr]]
  rw [parseMembers]
  rw [if_pos rfl]
  rw [parseStringBody_escape key.data (':' :: ' ' :: (V ++ ('\n' :: '}' :: tailrest)))]
  simp only [Option.bind]
  rw [skipWs_nonws (by decide)]
  rw [parseMemberColon]
  rw [if_pos rfl]
  rw [skipWs_ws (by decide), hnw, hv]
  simp only [Option.bind]
  rw [skipWs_ws (by decide), skipWs_nonws (by decide)]
  rw [parseMembersTail]
  rw [if_neg (by decide), if_pos rfl]


theorem isDigit_not_ws {c : Char} (h : c.isDigit = true) : isJsonWs c = false := by
  by_contra hcon
  have hw : isJsonWs c = true := by
    cases hx : isJsonWs c
    · exact absurd hx hcon
    · rfl
  simp only [isJsonWs, Bool.or_eq_true, decide_eq_true_eq] at hw
  rcases hw with ((rfl | rfl) | rfl) | rfl <;> simp at h

theorem skipWs_boolChars (b : Bool) (X : List Char) :
    skipWs (boolChars b ++ X) = boolChars b ++ X := by
  cases b
  · exact skipWs_nonws (by decide)
  · exact skipWs_nonws (by decide)

theorem skipWs_natChars (n : Nat) (X : List Char) :
    skipWs (natChars n ++ X) = natChars n ++ X := by
  obtain ⟨d, t, hnc, hd⟩ := natChars_shape n
  rw [hnc, List.cons_append, skipWs_nonws (isDigit_not_ws hd)]

theorem skipWs_printStrArr (l : List String) (X : List Char) :
    skipWs (printStrArr l ++ X) = printStrArr l ++ X := by
  cases l with
  | nil => exact skipWs_nonws (by decide)
  | cons x xs =>
    rw [show printStrArr (x :: xs) ++ X =
      '[' :: ('\n' :: ' ' :: ' ' :: ' ' :: ' ' :: (quoteStr x ++ printStrArrTail xs) ++ X) from by
      simp [printStrArr]]
    exact skipWs_nonws (by decide)

theorem skipWs_memberMore (k : String) (V X : List Char) :
    skipWs (printMemberMore k V X) = printMemberMore k V X := by
  rw [printMemberMore]
  exact skipWs_quoteStr k _

theorem skipWs_memberLast (k : String) (V X : List Char) :
    skipWs (printMemberLast k V X) = printMemberLast k V X := by
  rw [printMemberLast]
  exact skipWs_quoteStr k _

theorem len_quote (k : String) : 2 ≤ (quoteStr k).length := by
  simp only [quoteStr, List.length_cons, List.length_append, List.length_singleton]
  omega

theorem len_memberMore (k : String) (V t : List Char) :
    (printMemberMore k V t).length = (quoteStr k).length + V.length + t.length + 6 := by
  simp only [printMemberMore, List.length_append, List.length_cons]
  omega

theorem len_memberLast (k : String) (V t : List Char) :
    (printMemberLast k V t).length = (quoteStr k).length + V.length + t.length + 4 := by
  simp only [printMemberLast, List.length_append, List.length_cons]
  omega

theorem len_arrTail : ∀ xs : List String, xs.length ≤ (printStrArrTail xs).length := by
  intro xs
  induction xs with
  | nil => simp [printStrArrTail]
  | cons x xs ih =>
    have hq := len_quote x
    simp only [printStrArrTail, List.length_cons, List.length_append]
    omega

theorem len_arr (l : List String) : l.length ≤ (printStrArr l).length := by
  cases l with
  | nil => simp [printStrArr]
  | cons x xs =>
    have hq := len_quote x
    have ht := len_arrTail xs
    simp only [printStrArr, List.length_cons, List.length_append]
    omega

theorem toString_data (s : ResearchState) :
    (ResearchState.toString s).data = '{' :: '\n' :: ' ' :: ' ' ::
      printMemberMore "topic" (quoteStr s.topic)
        (printMemberMore "plan" (quoteStr s.plan)
          (printMemberMore "searchResults" (printStrArr s.searchResults)
            (printMemberMore "summary" (quoteStr s.summary)
              (printMemberMore "report" (quoteStr s.report)
                (printMemberMore "iterationCount" (natChars s.iterationCount)
                  (printMemberLast "isComplete" (boolChars s.isComplete) [])))))) := rfl

theorem toString_len (s : ResearchState) :
    s.searchResults.length + 8 ≤ (ResearchState.toString s).data.length := by
  rw [toString_data]
  have ha := len_arr s.searchResults
  simp only [List.length_cons, len_memberMore, len_memberLast]
  omega

theorem parseMembers_state (s : ResearchState) (g : Nat) :
    parseMembers (s.searchResults.length + g + 8)
      (printMemberMore "topic" (quoteStr s.topic)
        (printMemberMore "plan" (quoteStr s.plan)
          (printMemberMore "searchResults" (printStrArr s.searchResults)
            (printMemberMore "summary" (quoteStr s.summary)
              (printMemberMore "report" (quoteStr s.report)
                (printMemberMore "iterationCount" (natChars s.iterationCount)
                  (printMemberLast "isComplete" (boolChars s.isComplete) []))))))) =
      some (stateFields s, []) := by
  have h7 : parseMembers (s.searchResults.length + g + 2)
      (printMemberLast "isComplete" (boolChars s.isComplete) []) =
      some ([("isComplete", JVal.jbool s.isComplete)], []) := by
    rw [show s.searchResults.length + g + 2 = (s.searchResults.length + g + 1) + 1 from by omega]
    exact parseMembers_last (s.searchResults.length + g + 1) "isComplete"
      (boolChars s.isComplete) [] (JVal.jbool s.isComplete)
      (skipWs_boolChars s.isComplete ['\n', '}'])
      (parseValue_bool (s.searchResults.length + g) s.isComplete ['\n', '}'])
  have h6 : parseMembers (s.searchResults.length + g + 3)
      (printMemberMore "iterationCount" (natChars s.iterationCount)
        (printMemberLast "isComplete" (boolChars s.isComplete) [])) =
      some (("iterationCount", JVal.jnum s.iterationCount) ::
        [("isComplete", JVal.jbool s.isComplete)], []) := by
    rw [show s.searchResults.length + g + 3 = (s.searchResults.length + g + 2) + 1 from by omega]
    refine parseMembers_more (s.searchResults.length + g + 2) "iterationCount"
      (natChars s.iterationCount) _ _ _ []
      (skipWs_natChars s.iterationCount _)
      ?_
      (by rw [skipWs_memberLast]; exact h7)
    rw [show s.searchResults.length + g + 2 = (s.searchResults.length + g + 1) + 1 from by omega]
    exact parseValue_natChars (s.searchResults.length + g + 1) s.iterationCount _
      (fun d t h => by
        rw [List.cons.injEq] at h
        obtain ⟨rfl, _⟩ := h
        exact ⟨by decide, by decide, by decide, by decide⟩)
  have h5 : parseMembers (s.searchResults.length + g + 4)
      (printMemberMore "report" (quoteStr s.report)
        (printMemberMore "iterationCount" (natChars s.iterationCount)
          (printMemberLast "isComplete" (boolChars s.isComplete) []))) =
      some (("report", JVal.jstr s.report) ::
        ("iterationCount", JVal.jnum s.iterationCount) ::
        [("isComplete", JVal.jbool s.isComplete)], []) := by
    rw [show s.searchResults.length + g + 4 = (s.searchResults.length + g + 3) + 1 from by omega]
    refine parseMembers_more (s.searchResults.length + g + 3) "report"
      (quoteStr s.report) _ _ _ []
      (skipWs_quoteStr s.report _)
      ?_
      (by rw [skipWs_memberMore]; exact h6)
    rw [show s.searchResults.length + g + 3 = (s.searchResults.length + g + 2) + 1 from by omega]
    exact parseValue_quote (s.searchResults.length + g + 2) s.report _
  have h4 : parseMembers (s.searchResults.length + g + 5)
      (printMemberMore "summary" (quoteStr s.summary)
        (printMemberMore "report" (quoteStr s.report)
          (printMemberMore "iterationCount" (natChars s.iterationCount)
            (printMemberLast "isComplete" (boolChars s.isComplete) [])))) =
      some (("summary", JVal.jstr s.summary) ::
        ("report", JVal.jstr s.report) ::
        ("iterationCount", JVal.jnum s.iterationCount) ::
        [("isComplete", JVal.jbool s.isComplete)], []) := by
    rw [show s.searchResults.length + g + 5 = (s.searchResults.length + g + 4) + 1 from by omega]
    refine parseMembers_more (s.searchResults.length + g + 4) "summary"
      (quoteStr s.summary) _ _ _ []
      (skipWs_quoteStr s.summary _)
      ?_
      (by rw [skipWs_memberMore]; exact h5)
    rw [show s.searchResults.length + g + 4 = (s.searchResults.length + g + 3) + 1 from by omega]
    exact parseValue_quote (s.searchResults.length + g + 3) s.summary _
  have h3 : parseMembers (s.searchResults.length + g + 6)
      (printMemberMore "searchResults" (printStrArr s.searchResults)
        (printMemberMore "summary" (quoteStr s.summary)
          (printMemberMore "report" (quoteStr s.report)
            (printMemberMore "iterationCount" (natChars s.iterationCount)
              (printMemberLast "isComplete" (boolChars s.isComplete) []))))) =
      some (("searchResults", JVal.jarr (s.searchResults.map JVal.jstr)) ::
        ("summary", JVal.jstr s.summary) ::
        ("report", JVal.jstr s.report) ::
        ("iterationCount", JVal.jnum s.iterationCount) ::
        [("isComplete", JVal.jbool s.isComplete)], []) := by
    rw [show s.searchResults.length + g + 6 = (s.searchResults.length + g + 5) + 1 from by omega]
    refine parseMembers_more (s.searchResults.length + g + 5) "searchResults"
      (printStrArr s.searchResults) _ _ _ []
      (skipWs_printStrArr s.searchResults _)
      ?_
      (by rw [skipWs_memberMore]; exact h4)
    rw [show s.searchResults.length + g + 5 = s.searchResults.length + (g + 2) + 3 from by omega]
    exact parseValue_arr (g + 2) s.searchResults _
  have h2 : parseMembers (s.searchResults.length + g + 7)
      (printMemberMore "plan" (quoteStr s.plan)
        (printMemberMore "searchResults" (printStrArr s.searchResults)
          (printMemberMore "summary" (quoteStr s.summary)
            (printMemberMore "report" (quoteStr s.report)
              (printMemberMore "iterationCount" (natChars s.iterationCount)
                (printMemberLast "isComplete" (boolChars s.isComplete) [])))))) =
      some (("plan", JVal.jstr s.plan) ::
        ("searchResults", JVal.jarr (s.searchResults.map JVal.jstr)) ::
        ("summary", JVal.jstr s.summary) ::
        ("report", JVal.jstr s.report) ::
        ("iterationCount", JVal.jnum s.iterationCount) ::
        [("isComplete", JVal.jbool s.isComplete)], []) := by
    rw [show s.searchResults.length + g + 7 = (s.searchResults.length + g + 6) + 1 from by omega]
    refine parseMembers_more (s.searchResults.length + g + 6) "plan"
      (quoteStr s.plan) _ _ _ []
      (skipWs_quoteStr s.plan _)
      ?_
      (by rw [skipWs_memberMore]; exact h3)
    rw [show s.searchResults.length + g + 6 = (s.searchResults.length + g + 5) + 1 from by omega]
    exact parseValue_quote (s.searchResults.length + g + 5) s.plan _
  rw [show s.searchResults.length + g + 8 = (s.searchResults.length + g + 7) + 1 from by omega]
  refine parseMembers_more (s.searchResults.length + g + 7) "topic"
    (quoteStr s.topic) _ _ _ []
    (skipWs_quoteStr s.topic _)
    ?_
    (by rw [skipWs_memberMore]; exact h2)
  rw [show s.searchResults.length + g + 7 = (s.searchResults.length + g + 6) + 1 from by omega]
  exact parseValue_quote (s.searchResults.length + g + 6) s.topic _

theorem memberMore_cons (k : String) (V t : List Char) :
    printMemberMore k V t = '"' :: (escapeChars k.data ++
      ('"' :: (':' :: ' ' :: (V ++ (',' :: '\n' :: ' ' :: ' ' :: t))))) := by
  simp [printMemberMore, quoteStr]

theorem parseJson_toString (s : ResearchState) :
    parseJson (ResearchState.toString s) = some (JVal.jobj (stateFields s)) := by
  obtain ⟨g, hg⟩ : ∃ g, (ResearchState.toString s).data.length =
      s.searchResults.length + g + 8 :=
    ⟨(ResearchState.toString s).data.length - (s.searchResults.length + 8), by
      have := toString_len s
      omega⟩
  unfold parseJson
  rw [toString_data] at hg ⊢
  rw [hg]
  rw [skipWs_nonws (by decide)]
  rw [parseValue]
  rw [if_neg (by decide : ¬ ('{' : Char) = '"'), if_neg (by decide : ¬ ('{' : Char) = '['),
    if_pos (show ('{' : Char) = '{' from rfl)]
  rw [skipWs_ws (by decide), skipWs_ws (by decide), skipWs_ws (by decide), skipWs_memberMore]
  rw [memberMore_cons]
  rw [parseObjTail]
  rw [if_neg (by decide : ¬ ('"' : Char) = '}')]
  rw [← memberMore_cons]
  rw [parseMembers_state s g]
  rfl

theorem strList_map (l : List String) : strList (l.map JVal.jstr) = some l := by
  induction l with
  | nil => rfl
  | cons x xs ih =>
    rw [List.map_cons, strList, ih]
    rfl

theorem lookupLast_state (s : ResearchState) :
    lookupLast "topic" (stateFields s) = some (JVal.jstr s.topic) := by
  simp +decide [stateFields, lookupLast]

theorem assignField_topic (st : ResearchState) (v : String) :
    assignField st ("topic", JVal.jstr v) = some { st with topic := v } := rfl

theorem assignField_plan (st : ResearchState) (v : String) :
    assignField st ("plan", JVal.jstr v) = some { st with plan := v } := rfl

theorem assignField_sr (st : ResearchState) (l : List String) :
    assignField st ("searchResults", JVal.jarr (l.map JVal.jstr)) =
      some { st with searchResults := l } := by
  rw [show assignField st ("searchResults", JVal.jarr (l.map JVal.jstr)) =
      (strList (l.map JVal.jstr)).map (fun x => { st with searchResults := x }) from rfl]
  rw [strList_map]
  rfl

theorem assignField_summary (st : ResearchState) (v : String) :
    assignField st ("summary", JVal.jstr v) = some { st with summary := v } := rfl

theorem assignField_report (st : ResearchState) (v : String) :
    assignField st ("report", JVal.jstr v) = some { st with report := v } := rfl

theorem assignField_iter (st : ResearchState) (n : Nat) :
    assignField st ("iterationCount", JVal.jnum n) =
      some { st with iterationCount := n } := rfl

theorem assignField_complete (st : ResearchState) (b : Bool) :
    assignField st ("isComplete", JVal.jbool b) =
      some { st with isComplete := b } := rfl

theorem assignFields_state (s : ResearchState) :
    assignFields (ResearchState.init s.topic) (stateFields s) = some s := by
  obtain ⟨t, p, sr, su, r, ic, co⟩ := s
  simp only [stateFields, assignFields, assignField_topic, assignField_plan,
    assignField_sr, assignField_summary, assignField_report, assignField_iter,
    assignField_complete]

/-- C7: deserializing the serialization of any `ResearchState` —
`ResearchState.fromString(s.toString())` — succeeds and reproduces the state,
hence every field (`topic`, `plan`, `searchResults`, `summary`, `report`,
`iterationCount`, `isComplete`) exactly. -/
theorem serialization_round_trip (s : ResearchState) :
    ResearchState.fromString (ResearchState.toString s) = some s := by
  unfold ResearchState.fromString
  rw [parseJson_toString]
  simp only []
  rw [lookupLast_state]
  simp only []
  exact assignFields_state s

end Research
